import Mathlib

/-!
Verification development for the FAQ aggregation / semantic-deduplication
engine of the TN-State-Chatbot repository.

Strings are modelled as lists of code points (`List Nat`); each JavaScript
string operation used by the source (`toLowerCase`, the regexes `[^\w\s]`
and `\s+`, `trim`, `split(' ')`) is embedded as a function on `List Nat`.
-/

namespace TNChat

/-- The JS word-character class `\w`, i.e. `[A-Za-z0-9_]`, on a code point. -/
def isWordCode (c : Nat) : Bool :=
  (48 ≤ c && c ≤ 57) || (65 ≤ c && c ≤ 90) || (97 ≤ c && c ≤ 122) || c == 95

/-- The JS whitespace class `\s` (space, tab, LF, VT, FF, CR, NBSP). -/
def isSpaceCode (c : Nat) : Bool :=
  c == 32 || c == 9 || c == 10 || c == 11 || c == 12 || c == 13 || c == 160

/-- `String.prototype.toLowerCase` on one code point (ASCII range). -/
def lowerCode (c : Nat) : Nat := if 65 ≤ c && c ≤ 90 then c + 32 else c

/-- A character kept by the filter `.replace(/[^\w\s]/g, '')`. -/
def keptCode (c : Nat) : Bool := isWordCode c || isSpaceCode c

/-- One pass of `.replace(/\s+/g, ' ')`: each maximal run of whitespace
becomes a single space (code 32).  The boolean records whether the previous
kept character was part of a whitespace run. -/
def collapseAux : Bool → List Nat → List Nat
  | _, [] => []
  | prevSpace, c :: rest =>
    if isSpaceCode c then
      if prevSpace then collapseAux true rest
      else 32 :: collapseAux true rest
    else c :: collapseAux false rest

def collapseSpaces (l : List Nat) : List Nat := collapseAux false l

/-- Leading-whitespace removal, half of `String.prototype.trim`. -/
def trimLeft (l : List Nat) : List Nat := l.dropWhile isSpaceCode

/-- Trailing-whitespace removal, the other half of `trim`. -/
def trimRight (l : List Nat) : List Nat :=
  (l.reverse.dropWhile isSpaceCode).reverse

def jsTrim (l : List Nat) : List Nat := trimRight (trimLeft l)

/-- `normalizeQuery` from the analytics route: lower-case, delete characters
that are neither word characters nor whitespace, collapse whitespace runs to
single spaces, trim. -/
def normalizeQuery (l : List Nat) : List Nat :=
  jsTrim (collapseSpaces ((l.map lowerCode).filter keptCode))

/-- Code points of a Lean string, the boundary to concrete examples. -/
def codes (s : String) : List Nat := s.data.map Char.toNat

/-! ### Characterisation of normalized output -/

/-- Every whitespace character is a plain space and no two adjacent
characters are both whitespace. -/
def wellSpaced : List Nat → Bool
  | [] => true
  | [c] => !isSpaceCode c || c == 32
  | c :: d :: rest =>
    (!isSpaceCode c || (c == 32 && !isSpaceCode d)) && wellSpaced (d :: rest)

theorem wellSpaced_tail {c : Nat} {l : List Nat} (h : wellSpaced (c :: l)) :
    wellSpaced l := by
  cases l with
  | nil => rfl
  | cons d rest => exact (Bool.and_eq_true _ _ |>.mp h).2

theorem lowerCode_idem (c : Nat) : lowerCode (lowerCode c) = lowerCode c := by
  unfold lowerCode
  by_cases h : (65 ≤ c && c ≤ 90) = true
  · simp only [Bool.and_eq_true, decide_eq_true_eq] at h
    simp only [Bool.and_eq_true, decide_eq_true_eq, h, and_self, if_true]
    rw [if_neg (by omega)]
  · simp [h]

theorem mem_collapseAux {c : Nat} :
    ∀ {b : Bool} {l : List Nat}, c ∈ collapseAux b l → c = 32 ∨ c ∈ l := by
  intro b l
  induction l generalizing b with
  | nil => intro h; simp [collapseAux] at h
  | cons d rest ih =>
    intro h
    simp only [collapseAux] at h
    split at h
    · split at h
      · rcases ih h with h2 | h2
        exacts [Or.inl h2, Or.inr (List.mem_cons_of_mem _ h2)]
      · rcases List.mem_cons.mp h with h2 | h2
        · exact Or.inl h2
        · rcases ih h2 with h3 | h3
          exacts [Or.inl h3, Or.inr (List.mem_cons_of_mem _ h3)]
    · rcases List.mem_cons.mp h with h2 | h2
      · exact Or.inr (h2 ▸ List.mem_cons_self _ _)
      · rcases ih h2 with h3 | h3
        exacts [Or.inl h3, Or.inr (List.mem_cons_of_mem _ h3)]

theorem trimRight_pref (l : List Nat) : trimRight l <+: l := by
  have h := List.dropWhile_suffix (l := l.reverse) (p := isSpaceCode)
  have h2 : (l.reverse.dropWhile isSpaceCode).reverse <+: l.reverse.reverse :=
    List.reverse_prefix.mpr h
  simpa [trimRight] using h2

theorem mem_trimRight {c : Nat} {l : List Nat} (h : c ∈ trimRight l) : c ∈ l :=
  (trimRight_pref l).sublist.subset h

theorem mem_trimLeft {c : Nat} {l : List Nat} (h : c ∈ trimLeft l) : c ∈ l :=
  (List.dropWhile_sublist _).subset h

theorem wellSpaced_head {c : Nat} {l : List Nat} (h : wellSpaced (c :: l)) :
    (!isSpaceCode c || c == 32) = true := by
  cases l with
  | nil => exact h
  | cons d r =>
    have h1 := ((Bool.and_eq_true _ _).mp h).1
    rcases (Bool.or_eq_true _ _).mp h1 with h2 | h2
    · exact (Bool.or_eq_true _ _).mpr (Or.inl h2)
    · exact (Bool.or_eq_true _ _).mpr (Or.inr ((Bool.and_eq_true _ _).mp h2).1)

theorem wellSpaced_pair {c d : Nat} {l : List Nat} (h : wellSpaced (c :: d :: l))
    (hc : isSpaceCode c = true) : c = 32 ∧ isSpaceCode d = false := by
  have h1 := ((Bool.and_eq_true _ _).mp h).1
  rcases (Bool.or_eq_true _ _).mp h1 with h2 | h2
  · rw [hc] at h2; simp at h2
  · have h3 := (Bool.and_eq_true _ _).mp h2
    exact ⟨by simpa using h3.1, Bool.not_eq_true' .. |>.mp h3.2⟩

theorem collapseAux_true_shape (l : List Nat) :
    collapseAux true l = [] ∨
      ∃ c r, collapseAux true l = c :: r ∧ isSpaceCode c = false := by
  induction l with
  | nil => exact Or.inl rfl
  | cons d rest ih =>
    by_cases hd : isSpaceCode d = true
    · simpa [collapseAux, hd] using ih
    · refine Or.inr ⟨d, collapseAux false rest, ?_, ?_⟩
      · simp [collapseAux, hd]
      · exact Bool.not_eq_true _ |>.mp hd

theorem wellSpaced_collapseAux : ∀ (l : List Nat) (b : Bool),
    wellSpaced (collapseAux b l) = true := by
  intro l
  induction l with
  | nil => intro b; rfl
  | cons d rest ih =>
    intro b
    by_cases hd : isSpaceCode d = true
    · cases b with
      | true => simpa [collapseAux, hd] using ih true
      | false =>
        rw [show collapseAux false (d :: rest) = 32 :: collapseAux true rest by
          simp [collapseAux, hd]]
        rcases collapseAux_true_shape rest with h0 | ⟨e, r, h0, he⟩
        · rw [h0]; rfl
        · rw [h0]
          show ((!isSpaceCode 32 || (32 == 32 && !isSpaceCode e)) &&
            wellSpaced (e :: r)) = true
          rw [he, ← h0]
          simpa using ih true
    · rw [show collapseAux b (d :: rest) = d :: collapseAux false rest by
        simp [collapseAux, hd]]
      cases h0 : collapseAux false rest with
      | nil =>
        show (!isSpaceCode d || d == 32) = true
        simp [hd]
      | cons e r =>
        show ((!isSpaceCode d || (d == 32 && !isSpaceCode e)) &&
          wellSpaced (e :: r)) = true
        rw [Bool.and_eq_true]
        constructor
        · simp [hd]
        · rw [← h0]; exact ih false

theorem collapseAux_fixed : ∀ (l : List Nat) (b : Bool),
    wellSpaced l = true →
    (b = true → ∀ c r, l = c :: r → isSpaceCode c = false) →
    collapseAux b l = l := by
  intro l
  induction l with
  | nil => intro b _ _; rfl
  | cons d rest ih =>
    intro b hw hh
    by_cases hd : isSpaceCode d = true
    · cases b with
      | true => exact absurd (hh rfl d rest rfl) (by simp [hd])
      | false =>
        have hdr : d = 32 ∧ (∀ c r, rest = c :: r → isSpaceCode c = false) := by
          cases rest with
          | nil =>
            refine ⟨?_, by intro c r h0; cases h0⟩
            have h1 := wellSpaced_head hw
            rw [hd] at h1
            simpa using h1
          | cons e r =>
            have h1 := wellSpaced_pair hw hd
            refine ⟨h1.1, ?_⟩
            intro c q h0
            cases h0
            exact h1.2
        have h2 : collapseAux false (d :: rest) = 32 :: collapseAux true rest := by
          simp [collapseAux, hd]
        rw [h2, hdr.1, ih true (wellSpaced_tail hw) (fun _ => hdr.2)]
    · have h2 : collapseAux b (d :: rest) = d :: collapseAux false rest := by
        simp [collapseAux, hd]
      rw [h2, ih false (wellSpaced_tail hw) (by intro h0; cases h0)]

theorem wellSpaced_dropWhile {l : List Nat} (h : wellSpaced l = true) :
    wellSpaced (l.dropWhile isSpaceCode) = true := by
  induction l with
  | nil => exact h
  | cons d rest ih =>
    rw [List.dropWhile_cons]
    split
    · exact ih (wellSpaced_tail h)
    · exact h

theorem wellSpaced_append_left : ∀ (l t : List Nat),
    wellSpaced (l ++ t) = true → wellSpaced l = true := by
  intro l
  induction l with
  | nil => intro t _; rfl
  | cons c l2 ih =>
    intro t hw
    cases l2 with
    | nil =>
      cases t with
      | nil => exact hw
      | cons e r =>
        have h1 := wellSpaced_head (c := c) (l := e :: r) hw
        show (!isSpaceCode c || c == 32) = true
        exact h1
    | cons d l3 =>
      show ((!isSpaceCode c || (c == 32 && !isSpaceCode d)) &&
        wellSpaced (d :: l3)) = true
      rw [Bool.and_eq_true]
      have h1 : wellSpaced (c :: d :: (l3 ++ t)) = true := hw
      constructor
      · exact ((Bool.and_eq_true _ _).mp h1).1
      · exact ih t (wellSpaced_tail hw)

theorem wellSpaced_trimRight {l : List Nat} (h : wellSpaced l = true) :
    wellSpaced (trimRight l) = true := by
  obtain ⟨t, ht⟩ := trimRight_pref l
  exact wellSpaced_append_left _ t (by rw [ht]; exact h)

theorem dropWhile_eq_cons_head {p : Nat → Bool} :
    ∀ {l : List Nat} {c : Nat} {r : List Nat},
      List.dropWhile p l = c :: r → p c = false := by
  intro l
  induction l with
  | nil => intro c r h; cases h
  | cons d rest ih =>
    intro c r h
    by_cases hpd : p d = true
    · rw [List.dropWhile_cons_of_pos hpd] at h
      exact ih h
    · rw [List.dropWhile_cons_of_neg hpd] at h
      injection h with h1 _
      subst h1
      simpa using hpd

theorem dropWhile_idem {p : Nat → Bool} (l : List Nat) :
    (l.dropWhile p).dropWhile p = l.dropWhile p := by
  cases h : l.dropWhile p with
  | nil => rfl
  | cons c r =>
    exact List.dropWhile_cons_of_neg (by simp [dropWhile_eq_cons_head h])

theorem trimRight_idem (l : List Nat) : trimRight (trimRight l) = trimRight l := by
  unfold trimRight
  rw [List.reverse_reverse, dropWhile_idem]

theorem trimLeft_jsTrim (l : List Nat) : trimLeft (jsTrim l) = jsTrim l := by
  unfold jsTrim
  cases h : trimLeft l with
  | nil => rfl
  | cons c r =>
    have hc : isSpaceCode c = false := dropWhile_eq_cons_head h
    have hne : trimRight (c :: r) ≠ [] := by
      unfold trimRight
      intro h0
      have h1 : (c :: r).reverse.dropWhile isSpaceCode = [] := by
        have h2 := congrArg List.reverse h0
        simpa using h2
      have h3 := List.dropWhile_eq_nil_iff.mp h1 c (by simp)
      rw [hc] at h3
      cases h3
    obtain ⟨t, ht⟩ := trimRight_pref (c :: r)
    cases h4 : trimRight (c :: r) with
    | nil => exact absurd h4 hne
    | cons e q =>
      rw [h4] at ht
      injection ht with h5 _
      subst h5
      exact List.dropWhile_cons_of_neg (by simp [hc])

theorem trimRight_jsTrim (l : List Nat) : trimRight (jsTrim l) = jsTrim l := by
  unfold jsTrim
  exact trimRight_idem _

theorem jsTrim_jsTrim (l : List Nat) : jsTrim (jsTrim l) = jsTrim l := by
  show trimRight (trimLeft (jsTrim l)) = jsTrim l
  rw [trimLeft_jsTrim, trimRight_jsTrim]

theorem map_id_of_mem {f : Nat → Nat} :
    ∀ (l : List Nat), (∀ c ∈ l, f c = c) → l.map f = l := by
  intro l
  induction l with
  | nil => intro _; rfl
  | cons c r ih =>
    intro h
    rw [List.map_cons, h c (List.mem_cons_self _ _),
      ih (fun d hd => h d (List.mem_cons_of_mem _ hd))]

theorem filter_id_of_mem {p : Nat → Bool} :
    ∀ (l : List Nat), (∀ c ∈ l, p c = true) → l.filter p = l := by
  intro l
  induction l with
  | nil => intro _; rfl
  | cons c r ih =>
    intro h
    rw [List.filter_cons_of_pos (h c (List.mem_cons_self _ _)),
      ih (fun d hd => h d (List.mem_cons_of_mem _ hd))]

theorem normalizeQuery_chars {c : Nat} {l : List Nat}
    (h : c ∈ normalizeQuery l) : lowerCode c = c ∧ keptCode c = true := by
  unfold normalizeQuery jsTrim at h
  have h1 := mem_trimLeft (mem_trimRight h)
  rcases mem_collapseAux h1 with h2 | h2
  · subst h2
    exact ⟨rfl, rfl⟩
  · have h3 := List.mem_filter.mp h2
    obtain ⟨d, _, rfl⟩ := List.mem_map.mp h3.1
    exact ⟨lowerCode_idem d, h3.2⟩

theorem wellSpaced_normalizeQuery (l : List Nat) :
    wellSpaced (normalizeQuery l) = true := by
  unfold normalizeQuery jsTrim collapseSpaces
  exact wellSpaced_trimRight (wellSpaced_dropWhile (wellSpaced_collapseAux _ false))

theorem normalizeQuery_idem (l : List Nat) :
    normalizeQuery (normalizeQuery l) = normalizeQuery l := by
  have hmap : (normalizeQuery l).map lowerCode = normalizeQuery l :=
    map_id_of_mem _ (fun c hc => (normalizeQuery_chars hc).1)
  have hfil : (normalizeQuery l).filter keptCode = normalizeQuery l :=
    filter_id_of_mem _ (fun c hc => (normalizeQuery_chars hc).2)
  have hcol : collapseSpaces (normalizeQuery l) = normalizeQuery l :=
    collapseAux_fixed _ false (wellSpaced_normalizeQuery l) (fun h => nomatch h)
  show jsTrim (collapseSpaces (((normalizeQuery l).map lowerCode).filter keptCode)) =
    normalizeQuery l
  rw [hmap, hfil, hcol]
  show jsTrim (jsTrim (collapseSpaces ((l.map lowerCode).filter keptCode))) =
    normalizeQuery l
  rw [jsTrim_jsTrim]
  rfl

/-- C7: normalization is idempotent — `normalizeQuery (normalizeQuery l) =
normalizeQuery l` for every code-point sequence `l` — and, as a pure total
function, it is deterministic; moreover
`normalizeQuery " Can You Reset MY Password? "` equals
`normalizeQuery "can you reset my password"`. -/
theorem c7_normalize_idempotent :
    (∀ l : List Nat, normalizeQuery (normalizeQuery l) = normalizeQuery l) ∧
    normalizeQuery (codes " Can You Reset MY Password? ") =
      normalizeQuery (codes "can you reset my password") :=
  ⟨normalizeQuery_idem, by decide⟩

/-! ### Semantic similarity (analytics route) -/

/-- `String.prototype.split(' ')`: chunks between single space characters
(empty chunks included, as in JS). -/
def splitOnSpace : List Nat → List (List Nat)
  | [] => [[]]
  | c :: rest =>
    if c == 32 then [] :: splitOnSpace rest
    else
      match splitOnSpace rest with
      | [] => [[c]]
      | w :: ws => (c :: w) :: ws

/-- The set of meaningful tokens of a query: words of the normalized text
whose length exceeds 2, as in
`new Set(normalizeQuery(q).split(' ').filter(w => w.length > 2))`. -/
def meaningfulTokens (q : List Nat) : Finset (List Nat) :=
  ((splitOnSpace (normalizeQuery q)).filter (fun w => 2 < w.length)).toFinset

/-- `semanticSimilarity` from the analytics route: if either token set has at
most 2 members, score 1 when the first set has the same size as and is
contained in the second (i.e. the sets are equal) and 0 otherwise; otherwise
Jaccard similarity of the token sets. -/
def semanticSimilarity (q1 q2 : List Nat) : ℚ :=
  if (meaningfulTokens q1).card ≤ 2 ∨ (meaningfulTokens q2).card ≤ 2 then
    if (meaningfulTokens q1).card = (meaningfulTokens q2).card ∧
        meaningfulTokens q1 ⊆ meaningfulTokens q2 then 1 else 0
  else ((meaningfulTokens q1 ∩ meaningfulTokens q2).card : ℚ) /
    ((meaningfulTokens q1 ∪ meaningfulTokens q2).card : ℚ)

/-- C5 (amended): for two questions whose meaningful-token sets each have at
most 2 members, the similarity score is 1 exactly when the two token sets are
equal — in particular whenever the questions are identical after
normalization — and 0 otherwise.  (Equal token sets can arise from
non-identical normalized texts, so the original claim's "0 whenever not
identical after normalization" does not hold.) -/
theorem c5_short_query_similarity (q1 q2 : List Nat)
    (h1 : (meaningfulTokens q1).card ≤ 2)
    (h2 : (meaningfulTokens q2).card ≤ 2) :
    (semanticSimilarity q1 q2 =
      if meaningfulTokens q1 = meaningfulTokens q2 then 1 else 0) ∧
    (normalizeQuery q1 = normalizeQuery q2 → semanticSimilarity q1 q2 = 1) := by
  have hmain : semanticSimilarity q1 q2 =
      if meaningfulTokens q1 = meaningfulTokens q2 then 1 else 0 := by
    unfold semanticSimilarity
    rw [if_pos (Or.inl h1)]
    by_cases he : meaningfulTokens q1 = meaningfulTokens q2
    · rw [if_pos he, if_pos ⟨by rw [he], by rw [he]⟩]
    · rw [if_neg he, if_neg ?_]
      intro hcs
      exact he (Finset.eq_of_subset_of_card_le hcs.2 (Nat.le_of_eq hcs.1.symm))
  refine ⟨hmain, fun hnm => ?_⟩
  have he : meaningfulTokens q1 = meaningfulTokens q2 := by
    unfold meaningfulTokens
    rw [hnm]
  rw [hmain, if_pos he]

/-- Witness for C5: concrete two-token questions with distinct token sets
score 0 by the amended rule. -/
theorem c5_short_query_similarity_witness :
    (meaningfulTokens (codes "reset password")).card ≤ 2 ∧
    (meaningfulTokens (codes "restart router")).card ≤ 2 ∧
    semanticSimilarity (codes "reset password") (codes "restart router") =
      if meaningfulTokens (codes "reset password") =
        meaningfulTokens (codes "restart router") then 1 else 0 :=
  ⟨by decide, by decide,
    (c5_short_query_similarity (codes "reset password")
      (codes "restart router") (by decide) (by decide)).1⟩

/-- C5 counterexample: "xyz abc" and "abc xyz" are not identical after
normalization, each has exactly 2 meaningful tokens, yet the code scores
them 1 (their token sets are equal), not 0 as the claim requires. -/
theorem c5_counterexample :
    (meaningfulTokens (codes "xyz abc")).card ≤ 2 ∧
    (meaningfulTokens (codes "abc xyz")).card ≤ 2 ∧
    normalizeQuery (codes "xyz abc") ≠ normalizeQuery (codes "abc xyz") ∧
    semanticSimilarity (codes "xyz abc") (codes "abc xyz") = 1 := by
  refine ⟨by decide, by decide, by decide, ?_⟩
  have h1 : meaningfulTokens (codes "xyz abc") =
      meaningfulTokens (codes "abc xyz") := by decide
  rw [(c5_short_query_similarity _ _ (by decide) (by decide)).1, if_pos h1]

/-! ### Backing store, recorder, aggregation, retention sweep -/

/-- One persisted document of the `user_queries` index: the raw question
text, the frequency counter, and the insertion timestamp (epoch ms). -/
structure Doc where
  question : List Nat
  count : Nat
  timestamp : Nat
deriving DecidableEq

/-- Apply `f` to the first document satisfying `p` (the update issued against
`hits.hits[0]._id`). -/
def updateFirst (p : Doc → Bool) (f : Doc → Doc) : List Doc → List Doc
  | [] => []
  | d :: rest => if p d then f d :: rest else d :: updateFirst p f rest

/-- `storeOrUpdateQuestion`: search the index for the question; if any hit
exists, run the script `ctx._source.count += 1` on the first hit (no other
field is touched); otherwise insert `{question, count: 1, timestamp: now}`.
The question text is used as given — no normalization. -/
def storeOrUpdateQuestion (now : Nat) (docs : List Doc) (q : List Nat) :
    List Doc :=
  if docs.any (fun d => d.question == q) then
    updateFirst (fun d => d.question == q)
      (fun d => { d with count := d.count + 1 }) docs
  else
    docs ++ [{ question := q, count := 1, timestamp := now }]

/-- A terms-aggregation bucket as consumed by the routes: the key text and
its document count. -/
structure QueryCount where
  text : List Nat
  count : Nat
deriving DecidableEq

/-- Distinct keys in first-appearance order. -/
def distinctAux (seen : List (List Nat)) : List (List Nat) → List (List Nat)
  | [] => []
  | k :: rest =>
    if k ∈ seen then distinctAux seen rest
    else k :: distinctAux (k :: seen) rest

/-- Number of documents whose `question` equals `k` (the bucket doc count —
not the stored `count` field). -/
def docCountFor (docs : List Doc) (k : List Nat) : Nat :=
  docs.countP (fun d => d.question == k)

/-- Stable insertion into a list kept in descending `key` order: the new
element goes after all elements with a greater-or-equal key. -/
def insertDescBy {α : Type} (key : α → Nat) (x : α) : List α → List α
  | [] => [x]
  | y :: t => if key y ≤ key x then x :: y :: t else y :: insertDescBy key x t

/-- Stable sort by descending `key`, the behaviour of a stable
`Array.prototype.sort` with comparator `(a, b) => key(b) - key(a)`. -/
def sortDescBy {α : Type} (key : α → Nat) : List α → List α
  | [] => []
  | x :: t => insertDescBy key x (sortDescBy key t)

/-- Modelled backend semantics of the terms aggregation on
`question.keyword` with `order: { _count: 'desc' }`: one bucket per distinct
key carrying its document count, sorted by document count descending
(stably, in first-appearance order on ties), capped at `size` buckets. -/
def termsAggregation (docs : List Doc) (size : Nat) : List QueryCount :=
  (sortDescBy QueryCount.count
    ((distinctAux [] (docs.map Doc.question)).map
      (fun k => ⟨k, docCountFor docs k⟩))).take size

/-- `getTopFAQs`: request the aggregation with `size: 5` and return only the
bucket keys. -/
def getTopFAQs (docs : List Doc) : List (List Nat) :=
  (termsAggregation docs 5).map QueryCount.text

def RETENTION_DAYS : Nat := 90

def MS_PER_DAY : Nat := 1000 * 60 * 60 * 24

/-- Is the document deleted by the sweep's delete-by-query: `timestamp`
before `now-90d` and `question.keyword` not among the current top 5. -/
def staleDoc (now : Nat) (top5 : List (List Nat)) (d : Doc) : Bool :=
  decide (d.timestamp < now - RETENTION_DAYS * MS_PER_DAY) &&
    !(decide (d.question ∈ top5))

/-- `pruneOld`: compute the current top 5, then delete matching documents;
returns the remaining documents and the logged number of deletions. -/
def pruneOld (now : Nat) (docs : List Doc) : List Doc × Nat :=
  (docs.filter (fun d => !(staleDoc now (getTopFAQs docs) d)),
   docs.countP (staleDoc now (getTopFAQs docs)))

theorem updateFirst_map_question (p : Doc → Bool) (f : Doc → Doc)
    (hf : ∀ d, (f d).question = d.question) :
    ∀ l : List Doc, (updateFirst p f l).map Doc.question = l.map Doc.question := by
  intro l
  induction l with
  | nil => rfl
  | cons d rest ih =>
    show (if p d then f d :: rest else d :: updateFirst p f rest).map Doc.question
      = _
    split
    · rw [List.map_cons, List.map_cons, hf d]
    · rw [List.map_cons, List.map_cons, ih]

theorem updateFirst_append (p : Doc → Bool) (f : Doc → Doc) :
    ∀ (pre : List Doc) (d : Doc) (post : List Doc),
      (∀ e ∈ pre, p e = false) → p d = true →
      updateFirst p f (pre ++ d :: post) = pre ++ f d :: post := by
  intro pre
  induction pre with
  | nil =>
    intro d post _ hd
    show (if p d then f d :: post else d :: updateFirst p f post) = f d :: post
    rw [if_pos hd]
  | cons e pre2 ih =>
    intro d post hpre hd
    show (if p e then f e :: (pre2 ++ d :: post)
      else e :: updateFirst p f (pre2 ++ d :: post)) = e :: (pre2 ++ f d :: post)
    rw [if_neg (by simp [hpre e (List.mem_cons_self _ _)]),
      ih d post (fun x hx => hpre x (List.mem_cons_of_mem _ hx)) hd]

/-- C1: evaluating the recording + ranking pipeline at a concrete store.
After recording "aaa" once and "zzz" three times, the store holds one
document per question with `count` 1 and 3 respectively, yet the top-1
aggregation returns "aaa" — the terms aggregation ranks by per-key document
count (always 1 under the one-document-per-question recorder), never reading
the `count` field, so the returned entries are not the most frequently
recorded questions. -/
theorem c1_frequency_ranking_bug :
    (storeOrUpdateQuestion 3
        (storeOrUpdateQuestion 2
          (storeOrUpdateQuestion 1
            (storeOrUpdateQuestion 0 [] (codes "aaa")) (codes "zzz"))
          (codes "zzz")) (codes "zzz")).map
        (fun d => (d.question, d.count)) =
      [(codes "aaa", 1), (codes "zzz", 3)] ∧
    (termsAggregation
        (storeOrUpdateQuestion 3
          (storeOrUpdateQuestion 2
            (storeOrUpdateQuestion 1
              (storeOrUpdateQuestion 0 [] (codes "aaa")) (codes "zzz"))
            (codes "zzz")) (codes "zzz")) 1).map QueryCount.text =
      [codes "aaa"] ∧
    getTopFAQs
        (storeOrUpdateQuestion 3
          (storeOrUpdateQuestion 2
            (storeOrUpdateQuestion 1
              (storeOrUpdateQuestion 0 [] (codes "aaa")) (codes "zzz"))
            (codes "zzz")) (codes "zzz")) =
      [codes "aaa", codes "zzz"] := by decide

/-- C2 counterexample: recording "Hello?" persists the raw text "Hello?"
itself, which differs from its normalized form — the record is not keyed by
normalized text and no normalization happens in the recording path. -/
theorem c2_counterexample :
    storeOrUpdateQuestion 0 [] (codes "Hello?") =
      [⟨codes "Hello?", 1, 0⟩] ∧
    normalizeQuery (codes "Hello?") ≠ codes "Hello?" := by decide

/-- C2 (amended): `record(rawText)` queries the store for a match on the raw
text as given — no normalization is applied — and the persisted record is
keyed by the raw text: an existing match leaves all stored question keys
unchanged, and a miss appends the raw text itself as the new key. -/
theorem c2_amended_raw_key (now : Nat) (docs : List Doc) (q : List Nat) :
    (storeOrUpdateQuestion now docs q).map Doc.question =
      if docs.any (fun d => d.question == q) then docs.map Doc.question
      else docs.map Doc.question ++ [q] := by
  unfold storeOrUpdateQuestion
  by_cases h : docs.any (fun d => d.question == q) = true
  · rw [if_pos h, if_pos h]
    exact updateFirst_map_question (fun d => d.question == q)
      (fun d => { d with count := d.count + 1 }) (fun _ => rfl) docs
  · rw [if_neg h, if_neg h, List.map_append]
    rfl

/-- C3 counterexample: a match at time `now = 5` on a record stored at
timestamp 0 increments `count` to 2 but leaves the timestamp at 0 — the
update script is `ctx._source.count += 1` only, so `lastSeen` is not set to
the current time. -/
theorem c3_counterexample :
    storeOrUpdateQuestion 5 [⟨codes "hi", 1, 0⟩] (codes "hi") =
      [⟨codes "hi", 2, 0⟩] ∧
    (⟨codes "hi", 2, 0⟩ : Doc).timestamp ≠ 5 := by decide

/-- C3 (amended): when a matching record exists, the single update issued
increments that record's `count` by exactly 1 and leaves every other field —
in particular its timestamp — unchanged; the timestamp is written only at
insertion, so it is never refreshed on a match. -/
theorem c3_amended_match_update (now : Nat) (pre post : List Doc) (d : Doc)
    (q : List Nat) (hpre : ∀ e ∈ pre, (e.question == q) = false)
    (hd : d.question = q) :
    storeOrUpdateQuestion now (pre ++ d :: post) q =
      pre ++ { d with count := d.count + 1 } :: post := by
  have hd2 : (d.question == q) = true := by simp [hd]
  have hany : ((pre ++ d :: post).any (fun e => e.question == q)) = true := by
    rw [List.any_append]
    refine (Bool.or_eq_true _ _).mpr (Or.inr ?_)
    rw [List.any_cons, hd2]
    rfl
  unfold storeOrUpdateQuestion
  rw [if_pos hany]
  exact updateFirst_append _ _ pre d post hpre hd2

/-- Witness for C3 (amended) at a concrete store: the first matching record
goes from count 2 to count 3 with its timestamp 7 intact; the later
duplicate is untouched. -/
theorem c3_amended_match_update_witness :
    ((∀ e ∈ ([⟨codes "aa", 1, 0⟩] : List Doc),
        (e.question == codes "hi") = false) ∧
      (⟨codes "hi", 2, 7⟩ : Doc).question = codes "hi") ∧
    storeOrUpdateQuestion 5
        ([⟨codes "aa", 1, 0⟩] ++ (⟨codes "hi", 2, 7⟩ : Doc) ::
          [⟨codes "hi", 1, 9⟩]) (codes "hi") =
      [⟨codes "aa", 1, 0⟩] ++ (⟨codes "hi", 3, 7⟩ : Doc) ::
        [⟨codes "hi", 1, 9⟩] :=
  ⟨⟨by decide, by decide⟩,
    c3_amended_match_update 5 _ _ _ _ (by decide) (by decide)⟩

theorem staleDoc_false_iff (now : Nat) (t : List (List Nat)) (e : Doc) :
    ((!(staleDoc now t e)) = true) ↔
      ¬(e.timestamp < now - RETENTION_DAYS * MS_PER_DAY ∧ e.question ∉ t) := by
  unfold staleDoc
  by_cases hA : e.timestamp < now - RETENTION_DAYS * MS_PER_DAY
  · by_cases hB : e.question ∈ t
    · simp [hA, hB]
    · simp [hA, hB]
  · simp [hA]

/-- C4: a sweep at time `now` retains exactly the documents that are not
(older than the 90-day window and outside the current top 5); in particular
a record whose timestamp is 100 days old is deleted when its question is not
in the top 5 and retained when it is. -/
theorem c4_retention_protection (now : Nat) (docs : List Doc) (d : Doc)
    (hd : d ∈ docs) (hnow : 100 * MS_PER_DAY ≤ now)
    (hts : d.timestamp = now - 100 * MS_PER_DAY) :
    (∀ e, e ∈ (pruneOld now docs).1 ↔
      e ∈ docs ∧ ¬(e.timestamp < now - RETENTION_DAYS * MS_PER_DAY ∧
        e.question ∉ getTopFAQs docs)) ∧
    (d.question ∉ getTopFAQs docs → d ∉ (pruneOld now docs).1) ∧
    (d.question ∈ getTopFAQs docs → d ∈ (pruneOld now docs).1) := by
  have hmem : ∀ e, e ∈ (pruneOld now docs).1 ↔
      e ∈ docs ∧ ¬(e.timestamp < now - RETENTION_DAYS * MS_PER_DAY ∧
        e.question ∉ getTopFAQs docs) := by
    intro e
    show e ∈ docs.filter _ ↔ _
    rw [List.mem_filter, staleDoc_false_iff]
  refine ⟨hmem, ?_, ?_⟩
  · intro hq hin
    have h2 := (hmem d).mp hin
    apply h2.2
    refine ⟨?_, hq⟩
    rw [hts]
    simp only [MS_PER_DAY, RETENTION_DAYS] at hnow ⊢
    omega
  · intro hq
    exact (hmem d).mpr ⟨hd, fun h3 => h3.2 hq⟩

/-- Witness for C4 at a concrete store: six distinct questions, five fresh
and one 100 days stale; the stale one is outside the top 5 and is deleted. -/
theorem c4_retention_protection_witness :
    ((⟨codes "old", 1, 0⟩ : Doc) ∈
      ([⟨codes "q1", 1, 8640000000⟩, ⟨codes "q2", 1, 8640000000⟩,
        ⟨codes "q3", 1, 8640000000⟩, ⟨codes "q4", 1, 8640000000⟩,
        ⟨codes "q5", 1, 8640000000⟩, ⟨codes "old", 1, 0⟩] : List Doc) ∧
      100 * MS_PER_DAY ≤ 8640000000 ∧
      (⟨codes "old", 1, 0⟩ : Doc).timestamp = 8640000000 - 100 * MS_PER_DAY) ∧
    (codes "old" ∉ getTopFAQs
      [⟨codes "q1", 1, 8640000000⟩, ⟨codes "q2", 1, 8640000000⟩,
        ⟨codes "q3", 1, 8640000000⟩, ⟨codes "q4", 1, 8640000000⟩,
        ⟨codes "q5", 1, 8640000000⟩, ⟨codes "old", 1, 0⟩]) ∧
    ((⟨codes "old", 1, 0⟩ : Doc) ∉
      (pruneOld 8640000000
        [⟨codes "q1", 1, 8640000000⟩, ⟨codes "q2", 1, 8640000000⟩,
          ⟨codes "q3", 1, 8640000000⟩, ⟨codes "q4", 1, 8640000000⟩,
          ⟨codes "q5", 1, 8640000000⟩, ⟨codes "old", 1, 0⟩]).1) :=
  ⟨⟨by decide, by decide, by decide⟩, by decide,
    ((c4_retention_protection 8640000000
      [⟨codes "q1", 1, 8640000000⟩, ⟨codes "q2", 1, 8640000000⟩,
        ⟨codes "q3", 1, 8640000000⟩, ⟨codes "q4", 1, 8640000000⟩,
        ⟨codes "q5", 1, 8640000000⟩, ⟨codes "old", 1, 0⟩]
      ⟨codes "old", 1, 0⟩ (by decide) (by decide) (by decide)).2).1
      (by decide)⟩

/-! ### Greedy semantic clustering (analytics route GET handler) -/

/-- One reported cluster: `{representativeQuery, variants, totalCount,
variantCounts}`. -/
structure QueryGroup where
  representativeQuery : List Nat
  variants : List (List Nat)
  totalCount : Nat
  variantCounts : List QueryCount
deriving DecidableEq

def similarityThreshold : ℚ := 6 / 10

/-- `similarQueries.reduce((prev, cur) => cur.count > prev.count ? cur :
prev, similarQueries[0])`. -/
def pickRepresentative (members : List QueryCount) (m0 : QueryCount) :
    QueryCount :=
  members.foldl (fun p c => if p.count < c.count then c else p) m0

/-- The greedy single-pass clustering loop: take the first unprocessed
candidate, absorb every later unprocessed candidate whose similarity to it
reaches the threshold, emit the group, continue on the rest. -/
def clusterQueries : List QueryCount → List QueryGroup
  | [] => []
  | q :: rest =>
    { representativeQuery :=
        (pickRepresentative
          (q :: rest.filter (fun r =>
            decide (similarityThreshold ≤ semanticSimilarity q.text r.text)))
          q).text
      variants :=
        (q :: rest.filter (fun r =>
          decide (similarityThreshold ≤ semanticSimilarity q.text r.text))).map
          QueryCount.text
      totalCount :=
        ((q :: rest.filter (fun r =>
          decide (similarityThreshold ≤ semanticSimilarity q.text r.text))).map
          QueryCount.count).sum
      variantCounts :=
        q :: rest.filter (fun r =>
          decide (similarityThreshold ≤ semanticSimilarity q.text r.text)) } ::
      clusterQueries (rest.filter (fun r =>
        !(decide (similarityThreshold ≤ semanticSimilarity q.text r.text))))
termination_by l => l.length
decreasing_by
  simp_wf
  have h := List.length_filter_le
    (fun r => !(decide (similarityThreshold ≤ semanticSimilarity q.text r.text)))
    rest
  omega

/-- The reported clustered view: clusters sorted by `totalCount` descending,
top 5 kept (`sort((a, b) => b.totalCount - a.totalCount).slice(0, 5)`). -/
def commonQueries (queries : List QueryCount) : List QueryGroup :=
  (sortDescBy QueryGroup.totalCount (clusterQueries queries)).take 5

theorem mem_insertDescBy {α : Type} (key : α → Nat) (x y : α) :
    ∀ l : List α, y ∈ insertDescBy key x l ↔ y = x ∨ y ∈ l := by
  intro l
  induction l with
  | nil => simp [insertDescBy]
  | cons z t ih =>
    show y ∈ (if key z ≤ key x then x :: z :: t else z :: insertDescBy key x t)
      ↔ _
    split
    · simp [List.mem_cons]
    · simp only [List.mem_cons, ih]
      tauto

theorem sorted_insertDescBy {α : Type} (key : α → Nat) (x : α) :
    ∀ l : List α, List.Sorted (fun a b => key b ≤ key a) l →
      List.Sorted (fun a b => key b ≤ key a) (insertDescBy key x l) := by
  intro l
  induction l with
  | nil => intro _; simp [insertDescBy]
  | cons z t ih =>
    intro hs
    rw [List.sorted_cons] at hs
    show List.Sorted _ (if key z ≤ key x then x :: z :: t
      else z :: insertDescBy key x t)
    split
    · rw [List.sorted_cons]
      refine ⟨?_, List.sorted_cons.mpr hs⟩
      intro b hb
      rcases List.mem_cons.mp hb with hb1 | hb1
      · subst hb1
        assumption
      · exact Nat.le_trans (hs.1 b hb1) (by assumption)
    · rw [List.sorted_cons]
      constructor
      · intro b hb
        rcases (mem_insertDescBy key x b t).mp hb with hb1 | hb1
        · subst hb1
          omega
        · exact hs.1 b hb1
      · exact ih hs.2

theorem sorted_sortDescBy {α : Type} (key : α → Nat) :
    ∀ l : List α, List.Sorted (fun a b => key b ≤ key a) (sortDescBy key l) := by
  intro l
  induction l with
  | nil => simp [sortDescBy]
  | cons x t ih => exact sorted_insertDescBy key x _ ih

theorem mem_sortDescBy {α : Type} (key : α → Nat) (y : α) :
    ∀ l : List α, y ∈ sortDescBy key l ↔ y ∈ l := by
  intro l
  induction l with
  | nil => simp [sortDescBy]
  | cons x t ih =>
    show y ∈ insertDescBy key x (sortDescBy key t) ↔ _
    rw [mem_insertDescBy, ih]
    simp [List.mem_cons]

theorem pickRepresentative_props :
    ∀ (l : List QueryCount) (init : QueryCount),
      (pickRepresentative l init = init ∨ pickRepresentative l init ∈ l) ∧
      init.count ≤ (pickRepresentative l init).count ∧
      ∀ m ∈ l, m.count ≤ (pickRepresentative l init).count := by
  intro l
  induction l with
  | nil =>
    intro init
    exact ⟨Or.inl rfl, Nat.le_refl _, fun m hm => (List.not_mem_nil m hm).elim⟩
  | cons c t ih =>
    intro init
    by_cases hc : init.count < c.count
    · have hstep : pickRepresentative (c :: t) init = pickRepresentative t c := by
        show pickRepresentative t (if init.count < c.count then c else init) = _
        rw [if_pos hc]
      obtain ⟨hmem, hle, hall⟩ := ih c
      rw [hstep]
      refine ⟨?_, Nat.le_trans (Nat.le_of_lt hc) hle, ?_⟩
      · rcases hmem with h1 | h1
        · exact Or.inr (by rw [h1]; exact List.mem_cons_self _ _)
        · exact Or.inr (List.mem_cons_of_mem _ h1)
      · intro m hm
        rcases List.mem_cons.mp hm with h1 | h1
        · subst h1
          exact hle
        · exact hall m h1
    · have hstep : pickRepresentative (c :: t) init = pickRepresentative t init := by
        show pickRepresentative t (if init.count < c.count then c else init) = _
        rw [if_neg hc]
      obtain ⟨hmem, hle, hall⟩ := ih init
      rw [hstep]
      refine ⟨?_, hle, ?_⟩
      · rcases hmem with h1 | h1
        · exact Or.inl h1
        · exact Or.inr (List.mem_cons_of_mem _ h1)
      · intro m hm
        rcases List.mem_cons.mp hm with h1 | h1
        · subst h1
          exact Nat.le_trans (Nat.le_of_not_lt hc) hle
        · exact hall m h1

theorem clusterQueries_props :
    ∀ (n : Nat) (l : List QueryCount), l.length ≤ n →
      ∀ g ∈ clusterQueries l,
        g.variants = g.variantCounts.map QueryCount.text ∧
        g.totalCount = (g.variantCounts.map QueryCount.count).sum ∧
        (∃ m ∈ g.variantCounts, m.text = g.representativeQuery ∧
          ∀ m2 ∈ g.variantCounts, m2.count ≤ m.count) := by
  intro n
  induction n with
  | zero =>
    intro l hl g hg
    have h0 : l = [] := List.length_eq_zero.mp (Nat.le_zero.mp hl)
    subst h0
    simp [clusterQueries] at hg
  | succ n ih =>
    intro l hl g hg
    cases l with
    | nil => simp [clusterQueries] at hg
    | cons q rest =>
      rw [clusterQueries] at hg
      rcases List.mem_cons.mp hg with h1 | h1
      · subst h1
        refine ⟨rfl, rfl, ?_⟩
        obtain ⟨hmem, _, hall⟩ := pickRepresentative_props
          (q :: rest.filter (fun r =>
            decide (similarityThreshold ≤ semanticSimilarity q.text r.text))) q
        refine ⟨pickRepresentative
          (q :: rest.filter (fun r =>
            decide (similarityThreshold ≤ semanticSimilarity q.text r.text))) q,
          ?_, rfl, hall⟩
        rcases hmem with h2 | h2
        · rw [h2]
          exact List.mem_cons_self _ _
        · exact h2
      · refine ih _ ?_ g h1
        have h2 := List.length_filter_le
          (fun r => !(decide (similarityThreshold ≤ semanticSimilarity q.text r.text)))
          rest
        have h3 : rest.length + 1 ≤ n + 1 := hl
        omega

theorem clusterQueries_sorted_variants :
    ∀ (n : Nat) (l : List QueryCount), l.length ≤ n →
      List.Sorted (fun a b : QueryCount => b.count ≤ a.count) l →
      ∀ g ∈ clusterQueries l,
        List.Sorted (fun a b : QueryCount => b.count ≤ a.count)
          g.variantCounts := by
  intro n
  induction n with
  | zero =>
    intro l hl hs g hg
    have h0 : l = [] := List.length_eq_zero.mp (Nat.le_zero.mp hl)
    subst h0
    simp [clusterQueries] at hg
  | succ n ih =>
    intro l hl hs g hg
    cases l with
    | nil => simp [clusterQueries] at hg
    | cons q rest =>
      rw [clusterQueries] at hg
      rcases List.mem_cons.mp hg with h1 | h1
      · subst h1
        show List.Sorted _ (q :: rest.filter _)
        exact List.Pairwise.sublist
          (List.Sublist.cons₂ q (List.filter_sublist rest)) hs
      · refine ih _ ?_ ?_ g h1
        · have h2 := List.length_filter_le
            (fun r =>
              !(decide (similarityThreshold ≤ semanticSimilarity q.text r.text)))
            rest
          have h3 : rest.length + 1 ≤ n + 1 := hl
          omega
        · exact List.Pairwise.sublist (List.filter_sublist rest)
            (List.sorted_cons.mp hs).2

/-- C6: over a candidate pool ordered by count descending (as delivered by
the aggregation), every reported cluster's representative is a member
attaining the maximum count, its `totalCount` is the sum of its members'
counts, its `variants` are exactly its members (count-descending), and the
returned list is sorted by `totalCount` descending and capped at 5. -/
theorem c6_cluster_report (queries : List QueryCount)
    (hs : List.Sorted (fun a b : QueryCount => b.count ≤ a.count) queries) :
    (commonQueries queries).length ≤ 5 ∧
    List.Sorted (fun g1 g2 : QueryGroup => g2.totalCount ≤ g1.totalCount)
      (commonQueries queries) ∧
    ∀ g ∈ commonQueries queries,
      g.variants = g.variantCounts.map QueryCount.text ∧
      g.totalCount = (g.variantCounts.map QueryCount.count).sum ∧
      (∃ m ∈ g.variantCounts, m.text = g.representativeQuery ∧
        ∀ m2 ∈ g.variantCounts, m2.count ≤ m.count) ∧
      List.Sorted (fun a b : QueryCount => b.count ≤ a.count) g.variantCounts := by
  refine ⟨List.length_take_le 5 _, ?_, ?_⟩
  · exact List.Pairwise.sublist (List.take_sublist _ _)
      (sorted_sortDescBy QueryGroup.totalCount _)
  · intro g hg
    have hg2 : g ∈ sortDescBy QueryGroup.totalCount (clusterQueries queries) :=
      List.take_subset _ _ hg
    have hg3 : g ∈ clusterQueries queries :=
      (mem_sortDescBy QueryGroup.totalCount g _).mp hg2
    obtain ⟨h1, h2, h3⟩ :=
      clusterQueries_props queries.length queries (Nat.le_refl _) g hg3
    exact ⟨h1, h2, h3,
      clusterQueries_sorted_variants queries.length queries (Nat.le_refl _)
        hs g hg3⟩

/-- Witness for C6 at the spec's own clustering scenario, candidates ordered
by count descending. -/
theorem c6_cluster_report_witness :
    List.Sorted (fun a b : QueryCount => b.count ≤ a.count)
      [⟨codes "how do i reset my password", 5⟩,
        ⟨codes "how can i reset my password", 3⟩,
        ⟨codes "what is the weather", 2⟩] ∧
    (commonQueries
      [⟨codes "how do i reset my password", 5⟩,
        ⟨codes "how can i reset my password", 3⟩,
        ⟨codes "what is the weather", 2⟩]).length ≤ 5 :=
  ⟨by decide,
    (c6_cluster_report
      [⟨codes "how do i reset my password", 5⟩,
        ⟨codes "how can i reset my password", 3⟩,
        ⟨codes "what is the weather", 2⟩] (by decide)).1⟩

/-! ### Sweeper startup scheduling, request handler, chat route -/

/-- The startup IIFE of the prune module: check index existence; if it
exists, run one sweep now and schedule `pruneOld` at a fixed interval of
`MS_PER_DAY`; otherwise only log — no sweep and no interval is scheduled.
Returns the store after startup and the scheduled interval (if any). -/
def sweeperStartup (now : Nat) (docs : List Doc) (indexExists : Bool) :
    List Doc × Option Nat :=
  if indexExists then ((pruneOld now docs).1, some MS_PER_DAY)
  else (docs, none)

/-- C8 counterexample: when the index does not exist at startup, no
recurring sweep interval is scheduled at all — contradicting "in either
case, after startup a sweep recurs at a fixed 24-hour interval". -/
theorem c8_counterexample :
    (sweeperStartup 0 [] false).2 = none ∧
    (none : Option Nat) ≠ some MS_PER_DAY := by decide

/-- C8 (amended): if the backing index exists at startup, one sweep runs
immediately and a sweep is scheduled to recur every 24 hours; if it does not
exist, the initial sweep is skipped and no recurring sweep is scheduled. -/
theorem c8_amended_schedule (now : Nat) (docs : List Doc) :
    sweeperStartup now docs true =
      ((pruneOld now docs).1, some (24 * 60 * 60 * 1000)) ∧
    sweeperStartup now docs false = (docs, none) := by
  constructor
  · unfold sweeperStartup
    rw [if_pos rfl]
    have h : MS_PER_DAY = 24 * 60 * 60 * 1000 := by decide
    rw [h]
  · unfold sweeperStartup
    rw [if_neg (by simp)]

/-- A parsed JSON value, as produced by `JSON.parse`. -/
inductive JsVal : Type where
  | jnull : JsVal
  | jbool : Bool → JsVal
  | jnum : Int → JsVal
  | jstr : List Nat → JsVal
  | jarr : List JsVal → JsVal
  | jobj : List (List Nat × JsVal) → JsVal

/-- JS truthiness of a parsed JSON value (there is no NaN after
`JSON.parse`). -/
def truthy : JsVal → Bool
  | .jnull => false
  | .jbool b => b
  | .jnum n => decide (n ≠ 0)
  | .jstr s => !s.isEmpty
  | .jarr _ => true
  | .jobj _ => true

/-- Property lookup on a parsed JSON object; on duplicate keys the last one
wins, as in `JSON.parse`. -/
def lookupLast (fields : List (List Nat × JsVal)) (k : List Nat) :
    Option JsVal :=
  match fields with
  | [] => none
  | (k2, v) :: rest =>
    match lookupLast rest k with
    | some v2 => some v2
    | none => if k2 == k then some v else none

/-- `const { question } = parsedBody`: destructuring `null` throws a
TypeError; on an object it reads the `question` property; on any other value
(primitives are boxed, arrays have no such property) it yields `undefined`. -/
def getQuestion : JsVal → Except Unit (Option JsVal)
  | .jnull => .error ()
  | .jobj fields => .ok (lookupLast fields (codes "question"))
  | _ => .ok none

structure HandlerResult where
  success : Bool
  message : String
deriving DecidableEq

/-- The backend call made by the recording path: succeeds with the updated
store when the index is reachable, fails otherwise. -/
def storeBackend (backendOk : Bool) (now : Nat) (docs : List Doc)
    (q : List Nat) : Option (List Doc) :=
  if backendOk then some (storeOrUpdateQuestion now docs q) else none

/-- `handleUserInput`: reject when `!question || question.trim() === ''`
before any store call; on a truthy non-string, `question.trim` is not a
function and a TypeError escapes; otherwise store and report success, or
catch the backend error and report failure. -/
def handleUserInput (backendOk : Bool) (now : Nat) (docs : List Doc)
    (question : Option JsVal) : Except Unit (HandlerResult × List Doc) :=
  match question with
  | none => .ok (⟨false, "Invalid or empty question."⟩, docs)
  | some v =>
    if truthy v = false then .ok (⟨false, "Invalid or empty question."⟩, docs)
    else
      match v with
      | .jstr s =>
        if jsTrim s = [] then
          .ok (⟨false, "Invalid or empty question."⟩, docs)
        else
          match storeBackend backendOk now docs s with
          | some docs2 => .ok (⟨true, "Question stored successfully."⟩, docs2)
          | none => .ok (⟨false, "Error storing question."⟩, docs)
      | _ => .error ()

structure ChatResponse where
  status : Nat
  body : String
deriving DecidableEq

/-- The POST /chat route: parse the body, destructure `question`, call
`handleUserInput` ignoring its result, and answer 200 with a fixed reply;
any thrown error (parse failure, destructuring null, non-string trim) is
caught and answered 500. -/
def chatRoute (backendOk : Bool) (now : Nat) (docs : List Doc)
    (parsedBody : Option JsVal) : ChatResponse × List Doc :=
  match parsedBody with
  | none => (⟨500, "Chat failed"⟩, docs)
  | some v =>
    match getQuestion v with
    | .error _ => (⟨500, "Chat failed"⟩, docs)
    | .ok q =>
      match handleUserInput backendOk now docs q with
      | .ok r => (⟨200, "Thank you for your question!"⟩, r.2)
      | .error _ => (⟨500, "Chat failed"⟩, docs)

/-- C9: a missing, empty, or whitespace-only question is rejected with a
failure result before any store interaction: the outcome is the same whether
or not the backend is reachable, and the store is returned unchanged. -/
theorem c9_validation_rejects (backendOk : Bool) (now : Nat) (docs : List Doc)
    (q : Option JsVal)
    (h : q = none ∨ ∃ s, q = some (.jstr s) ∧ jsTrim s = []) :
    handleUserInput backendOk now docs q =
      .ok (⟨false, "Invalid or empty question."⟩, docs) := by
  rcases h with h1 | ⟨s, h1, h2⟩
  · subst h1
    rfl
  · subst h1
    unfold handleUserInput
    dsimp only
    by_cases hs : truthy (.jstr s) = false
    · rw [if_pos hs]
    · rw [if_neg hs, if_pos h2]

/-- Witness for C9: a whitespace-only question against a reachable backend
and a nonempty store is rejected and the store is unchanged. -/
theorem c9_validation_rejects_witness :
    (some (JsVal.jstr (codes "   ")) = none ∨
      ∃ s, some (JsVal.jstr (codes "   ")) = some (JsVal.jstr s) ∧
        jsTrim s = []) ∧
    handleUserInput true 7 [⟨codes "aa", 1, 0⟩]
        (some (JsVal.jstr (codes "   "))) =
      .ok (⟨false, "Invalid or empty question."⟩, [⟨codes "aa", 1, 0⟩]) :=
  ⟨Or.inr ⟨codes "   ", rfl, by decide⟩,
    c9_validation_rejects true 7 _ _ (Or.inr ⟨codes "   ", rfl, by decide⟩)⟩

/-- C10 counterexample: the body "null" parses as JSON, but destructuring
`{ question }` from `null` throws, so the route answers 500, not 200. -/
theorem c10_counterexample :
    chatRoute true 0 [] (some JsVal.jnull) = (⟨500, "Chat failed"⟩, []) ∧
    (⟨500, "Chat failed"⟩ : ChatResponse).status ≠ 200 := by decide

/-- C10 (amended): for every body that parses to a JSON value other than
`null` whose `question` property is absent, falsy, or a string, POST /chat
answers HTTP 200 with the fixed acknowledgement reply even when recording
fails (validation rejection or unreachable backend) — the failure result of
`handleUserInput` is ignored by the route. -/
theorem c10_amended_ack (backendOk : Bool) (now : Nat) (docs : List Doc)
    (v : JsVal) (q : Option JsVal) (hq : getQuestion v = .ok q)
    (hqs : q = none ∨
      ∃ w, q = some w ∧ (truthy w = false ∨ ∃ s, w = .jstr s)) :
    (chatRoute backendOk now docs (some v)).1 =
      ⟨200, "Thank you for your question!"⟩ := by
  have hne : ∃ r, handleUserInput backendOk now docs q = .ok r := by
    rcases hqs with h1 | ⟨w, h1, h2⟩
    · subst h1
      exact ⟨_, rfl⟩
    · subst h1
      rcases h2 with h3 | ⟨s, h3⟩
      · unfold handleUserInput
        dsimp only
        rw [if_pos h3]
        exact ⟨_, rfl⟩
      · subst h3
        unfold handleUserInput
        dsimp only
        by_cases h4 : truthy (.jstr s) = false
        · rw [if_pos h4]
          exact ⟨_, rfl⟩
        · rw [if_neg h4]
          by_cases h5 : jsTrim s = []
          · rw [if_pos h5]
            exact ⟨_, rfl⟩
          · rw [if_neg h5]
            cases storeBackend backendOk now docs s with
            | some d2 => exact ⟨_, rfl⟩
            | none => exact ⟨_, rfl⟩
  obtain ⟨r, hr⟩ := hne
  unfold chatRoute
  dsimp only
  rw [hq]
  dsimp only
  rw [hr]

/-- Witness for C10 (amended): a well-formed body whose recording fails
because the backend is unreachable still gets the 200 acknowledgement. -/
theorem c10_amended_ack_witness :
    getQuestion (JsVal.jobj [(codes "question", JsVal.jstr (codes "hi"))]) =
      .ok (some (JsVal.jstr (codes "hi"))) ∧
    (chatRoute false 0 []
      (some (JsVal.jobj [(codes "question", JsVal.jstr (codes "hi"))]))).1 =
      ⟨200, "Thank you for your question!"⟩ :=
  ⟨rfl,
    c10_amended_ack false 0 [] _ _ rfl
      (Or.inr ⟨_, rfl, Or.inr ⟨codes "hi", rfl⟩⟩)⟩
